import Mathlib

/-!
Verification of the data pipeline and state cores of the
`flowers-nextjs-table` React table library.

The development embeds the relevant source functions shallowly:

* the search/sort pipeline of `src/components/Table.tsx` (`processedData`),
* the sort-state machine of `src/hooks/useTableSort.ts` (`handleSort`),
* the selection state machine of `src/hooks/useRowSelection.ts`
  (`toggleAllRows`, `isAllSelected`, `isSomeSelected`),
* the persisted state cell of `src/hooks/useInternalState.ts`
  (the initializer and `updateState`),
* the page-number windowing of `src/components/Pagination.tsx`
  (`pageNumbers`),
* the pagination slicing of `src/components/Table.tsx` (`paginatedData`).

JavaScript values that can appear in a table cell are modelled by `JsVal`
(primitives plus flat arrays of primitives, matching the documented
`CellValue = DataValue | readonly DataValue[]`).  JS strings are modelled as
`List Char`; the relational operators on strings compare UTF-16 code units,
as required by ECMA-262, via an explicit UTF-16 encoder.
-/

namespace Flowers

/-- A primitive JS data value (the documented `DataValue`). -/
inductive JsPrim where
  | undef
  | null
  | bool (b : Bool)
  | num (n : Int)
  | str (s : List Char)
deriving DecidableEq

/-- A JS cell value: a primitive or a flat array of primitives
(the documented `CellValue`).  JS numbers are modelled by `Int`; every value
the development evaluates on is integral. -/
inductive JsVal where
  | undef
  | null
  | bool (b : Bool)
  | num (n : Int)
  | str (s : List Char)
  | arr (elems : List JsPrim)
deriving DecidableEq

/-- A row is a JS object: an association list from field names to values.
Absent fields read as `undefined`, as in JS. -/
abbrev Row := List (String × JsVal)

/-- Reading `row[key]` on a JS object: first binding, or `undefined`. -/
def getField (r : Row) (k : String) : JsVal :=
  match r.find? (fun p => p.1 == k) with
  | some p => p.2
  | none => JsVal.undef

/-- A column descriptor; only the accessor key takes part in the pipeline. -/
structure Column where
  accessorKey : String
deriving DecidableEq

/-- String rendering of a primitive, as JS `String(x)` produces it. -/
def primToStr : JsPrim → List Char
  | JsPrim.undef => "undefined".data
  | JsPrim.null => "null".data
  | JsPrim.bool true => "true".data
  | JsPrim.bool false => "false".data
  | JsPrim.num n => (toString n).data
  | JsPrim.str s => s

/-- JS `Array.prototype.join(",")`: elements comma-separated, with `null`
and `undefined` elements rendered as the empty string. -/
def joinArr : List JsPrim → List Char
  | [] => []
  | [p] =>
    match p with
    | JsPrim.undef => []
    | JsPrim.null => []
    | p => primToStr p
  | p :: ps =>
    (match p with
     | JsPrim.undef => []
     | JsPrim.null => []
     | p => primToStr p) ++ ',' :: joinArr ps

/-- JS `String(v)` coercion of a cell value. -/
def jsToString : JsVal → List Char
  | JsVal.undef => "undefined".data
  | JsVal.null => "null".data
  | JsVal.bool true => "true".data
  | JsVal.bool false => "false".data
  | JsVal.num n => (toString n).data
  | JsVal.str s => s
  | JsVal.arr l => joinArr l

/-- JS `ToPrimitive` as used by the relational operators: arrays convert to
their joined string, primitives are unchanged. -/
def jsPrimVal : JsVal → JsVal
  | JsVal.arr l => JsVal.str (joinArr l)
  | v => v

/-- Whitespace accepted by JS `ToNumber` string trimming (ASCII fragment). -/
def isWhitespace (c : Char) : Bool :=
  c == ' ' || c == '\t' || c == '\n' || c == '\r'

/-- Trim leading and trailing whitespace. -/
def trimStr (s : List Char) : List Char :=
  ((s.dropWhile isWhitespace).reverse.dropWhile isWhitespace).reverse

/-- Value of a nonempty all-digit string. -/
def digitsVal? (ds : List Char) : Option Nat :=
  if ds ≠ [] ∧ ds.all Char.isDigit then
    some (ds.foldl (fun a c => a * 10 + (c.toNat - 48)) 0)
  else none

/-- JS `ToNumber` on a string, modelled for optional-sign decimal integer
literals: the trimmed empty string is `0`, other strings that are not
sign-plus-digits map to `none` (NaN).  This covers every string the
development evaluates it on. -/
def strToNumber? (s : List Char) : Option Int :=
  match trimStr s with
  | [] => some 0
  | '-' :: ds => (digitsVal? ds).map (fun n => -(n : Int))
  | '+' :: ds => (digitsVal? ds).map (fun n => (n : Int))
  | ds => (digitsVal? ds).map (fun n => (n : Int))

/-- JS `ToNumber` on a primitive-converted value; `none` models NaN. -/
def toNumber? : JsVal → Option Int
  | JsVal.undef => none
  | JsVal.null => some 0
  | JsVal.bool b => some (if b then 1 else 0)
  | JsVal.num n => some n
  | JsVal.str s => strToNumber? s
  | JsVal.arr l => strToNumber? (joinArr l)

/-- UTF-16 code units of a string, as JS string comparison sees them. -/
def codeUnits (s : List Char) : List Nat :=
  (s.map (fun c =>
    if c.toNat < 0x10000 then [c.toNat]
    else [0xD800 + (c.toNat - 0x10000) / 0x400,
          0xDC00 + (c.toNat - 0x10000) % 0x400])).flatten

/-- Lexicographic strict order on code-unit sequences (JS `<` on strings). -/
def ltCodeUnits : List Nat → List Nat → Bool
  | _, [] => false
  | [], _ :: _ => true
  | a :: as, b :: bs =>
    if a < b then true else if b < a then false else ltCodeUnits as bs

/-- The JS abstract relational comparison `a < b` on cell values: both
operands convert to primitives; two strings compare by code units, any other
combination converts to numbers, and a NaN operand makes the comparison
false. -/
def jsLess (a b : JsVal) : Bool :=
  match jsPrimVal a, jsPrimVal b with
  | JsVal.str sa, JsVal.str sb => ltCodeUnits (codeUnits sa) (codeUnits sb)
  | a2, b2 =>
    match toNumber? a2, toNumber? b2 with
    | some x, some y => decide (x < y)
    | _, _ => false

/-- Sort direction. -/
inductive Direction where
  | asc
  | desc
deriving DecidableEq

/-- The sort state of `useTableSort`: a field key or `null`, and a
direction. -/
structure SortState where
  key : Option String
  direction : Direction
deriving DecidableEq

/-- The sort comparator of `processedData` in `src/components/Table.tsx`:
`if (valA < valB) return direction === "asc" ? -1 : 1;`
`if (valA > valB) return direction === "asc" ? 1 : -1; return 0;`
(JS `a > b` performs the comparison `b < a`). -/
def cmpJS (direction : Direction) (valA valB : JsVal) : Int :=
  if jsLess valA valB then (if direction = Direction.asc then -1 else 1)
  else if jsLess valB valA then (if direction = Direction.asc then 1 else -1)
  else 0

/-- Insert an element into a list, before the first element it does not
compare strictly greater than. -/
def insertCmp {α : Type} (c : α → α → Int) (x : α) : List α → List α
  | [] => [x]
  | y :: ys => if c x y ≤ 0 then x :: y :: ys else y :: insertCmp c x ys

/-- A stable comparator sort.  ECMA-262 requires `Array.prototype.sort` to be
stable; for a consistent comparator the stable order is unique, so a stable
insertion sort models it. -/
def stableSort {α : Type} (c : α → α → Int) : List α → List α
  | [] => []
  | x :: xs => insertCmp c x (stableSort c xs)

/-- The sort stage of `processedData`: `result.sort((a, b) => ...)` over the
values at the sort key. -/
def sortStage (direction : Direction) (key : String) (rows : List Row) :
    List Row :=
  stableSort (fun a b => cmpJS direction (getField a key) (getField b key))
    rows

/-- JS `String.prototype.toLowerCase`, modelled for ASCII via
`Char.toLower`. -/
def toLowerStr (s : List Char) : List Char :=
  s.map Char.toLower

/-- JS `String.prototype.includes`: the needle occurs as a contiguous
substring of the haystack. -/
def jsIncludes (needle : List Char) : List Char → Bool
  | [] => needle.isPrefixOf []
  | h :: t => needle.isPrefixOf (h :: t) || jsIncludes needle t

/-- The search stage of `processedData`: keep a row iff some non-reserved
column has a string-coerced value (with `?? ""` for nullish values)
containing the lowercased search value; skipped when the search value is
empty (JS string truthiness). -/
def searchStage (rows : List Row) (cols : List Column)
    (searchValue : List Char) : List Row :=
  if searchValue = [] then rows
  else
    rows.filter (fun item =>
      cols.any (fun col =>
        if col.accessorKey = "actions" ∨ col.accessorKey = "select" then
          false
        else
          jsIncludes (toLowerStr searchValue)
            (toLowerStr (jsToString
              (match getField item col.accessorKey with
               | JsVal.undef => JsVal.str []
               | JsVal.null => JsVal.str []
               | v => v)))))

/-- The full `processedData` pipeline of `src/components/Table.tsx`:
bypass when internal processing is disabled, else search then sort
(sorting is skipped when the key is `null` or the empty string, by JS
truthiness of `sortState.key`). -/
def processedData (data : List Row) (cols : List Column)
    (searchValue : List Char) (sortState : SortState)
    (disableInternalProcessing : Bool) : List Row :=
  if disableInternalProcessing then data
  else
    let result := searchStage data cols searchValue
    match sortState.key with
    | none => result
    | some k =>
      if k = "" then result else sortStage sortState.direction k result

/-- Whether a value is `null` or `undefined`. -/
def isNullish : JsVal → Bool
  | JsVal.null => true
  | JsVal.undef => true
  | _ => false

/-- Decides whether every row whose value at `k` is nullish comes after all
rows with non-nullish values: whenever a row is nullish, every later row is
nullish too. -/
def nullsLastB (k : String) : List Row → Bool
  | [] => true
  | r :: rs =>
    (!isNullish (getField r k) ||
      rs.all (fun r2 => isNullish (getField r2 k))) && nullsLastB k rs

/-- Modelled from the spec: locale-aware string comparison
(`String.prototype.localeCompare` with the default locale), which §4.4 and
the repository docs (`docs/api.md`) prescribe for two string values but
which is absent from the code.  Modelled for ASCII strings after the default
Unicode collation: letters compare case-insensitively by base letter first,
and equal base sequences break ties with lowercase before uppercase. -/
def lexCmp : List Nat → List Nat → Int
  | [], [] => 0
  | [], _ :: _ => -1
  | _ :: _, [] => 1
  | a :: as, b :: bs =>
    if a < b then -1 else if b < a then 1 else lexCmp as bs

/-- Case rank of a character: lowercase (and non-letters) before
uppercase at the tiebreak level. -/
def caseRank (c : Char) : Nat :=
  if c.isUpper then 1 else 0

/-- Modelled from the spec: the locale-aware comparison itself; see
`lexCmp` for the collation model. -/
def localeCompareSpec (a b : List Char) : Int :=
  let primary :=
    lexCmp ((a.map Char.toLower).map Char.toNat)
      ((b.map Char.toLower).map Char.toNat)
  if primary = 0 then lexCmp (a.map caseRank) (b.map caseRank) else primary

/-- The selection record `Record<string | number, boolean>` of
`useRowSelection`, modelled by its truthiness function: JS object keys are
strings, an absent key reads as `undefined`, and every read in the hook is a
truthiness test, so absent and `false` coincide observably. -/
abbrev SelMap := String → Bool

/-- The `toggleAllRows(ids, value?)` transition of
`src/hooks/useRowSelection.ts`: compute whether every given id is currently
truthy, derive the target value (the explicit value when given, else the
negation), then write the target to every given id on a copy of the map. -/
def toggleAllRows (m : SelMap) (ids : List String) (value : Option Bool) :
    SelMap :=
  let isAllCurrentlySelected :=
    decide (ids.length > 0) && ids.all (fun id => m id)
  let shouldSelect := value.getD (!isAllCurrentlySelected)
  ids.foldl (fun acc id => Function.update acc id shouldSelect) m

/-- The `isAllSelected(ids)` query:
`ids.length > 0 && ids.every((id) => selectedRowIds[id])`. -/
def isAllSelected (m : SelMap) (ids : List String) : Bool :=
  decide (ids.length > 0) && ids.all (fun id => m id)

/-- The `isSomeSelected(ids)` query: `false` on the empty list, else the
count of truthy ids is strictly between `0` and `ids.length`. -/
def isSomeSelected (m : SelMap) (ids : List String) : Bool :=
  if ids.length = 0 then false
  else
    let selectedCount := (ids.filter (fun id => m id)).length
    decide (selectedCount > 0) && decide (selectedCount < ids.length)

/-- The `handleSort(key)` transition of `src/hooks/useTableSort.ts`.
Reserved pseudo-keys return `none`: no state update is dispatched and no
callback fires, so the state is unchanged.  Otherwise the dispatched next
state is returned: direction `desc` exactly when the requested key is the
current key with direction `asc`, else `asc`. -/
def handleSort (sortState : SortState) (key : String) : Option SortState :=
  if key = "actions" ∨ key = "select" then none
  else
    some
      { key := some key
        direction :=
          if sortState.key = some key ∧ sortState.direction = Direction.asc
          then Direction.desc
          else Direction.asc }

/-- The key-value store behind `window.localStorage`: `getItem` yields
`null` (`none`) or a string. -/
abbrev Store := String → Option String

/-- The initializer of `useInternalState` in
`src/hooks/useInternalState.ts`: without a persistence key the default is
used; otherwise the stored item is read, a missing or empty item (JS string
truthiness of `if (item)`) falls back to the default, and `JSON.parse` is
modelled by `parse`, whose `none` result models the thrown parse error that
the surrounding `catch` turns into the default.  The function is total: no
failure path escapes. -/
def initState {S : Type} (defaultValue : S) (persistenceKey : Option String)
    (parse : String → Option S) (store : Store) : S :=
  match persistenceKey with
  | none => defaultValue
  | some k =>
    match store k with
    | none => defaultValue
    | some item =>
      if item = "" then defaultValue else (parse item).getD defaultValue

/-- The `updateState` setter of `src/hooks/useInternalState.ts`: the new
state is the literal value or the functional update applied to the previous
state; with a persistence key the serialized new state is written to the
store under that key (`JSON.stringify` is modelled by `stringify`; the
best-effort write is modelled as succeeding). -/
def updateState {S : Type} (persistenceKey : Option String)
    (stringify : S → String) (value : S ⊕ (S → S)) (prevState : S)
    (store : Store) : S × Store :=
  let newState :=
    match value with
    | Sum.inl v => v
    | Sum.inr f => f prevState
  match persistenceKey with
  | some k => (newState, Function.update store k (some (stringify newState)))
  | none => (newState, store)

/-- Pagination mode of the table. -/
inductive PaginationMode where
  | auto
  | manual
  | off
deriving DecidableEq

/-- `paginationMode === "manual"` in `src/components/Table.tsx`. -/
def isControlledPagination (m : PaginationMode) : Bool :=
  decide (m = PaginationMode.manual)

/-- `isPaginationEnabled` in `src/components/Table.tsx`. -/
def isPaginationEnabled (m : PaginationMode)
    (processedLength itemsPerPage : Nat) : Bool :=
  decide (m ≠ PaginationMode.off) &&
    (isControlledPagination m ||
      (decide (m = PaginationMode.auto) &&
        decide (processedLength > itemsPerPage)))

/-- `currentPage` in `src/components/Table.tsx`:
`isControlledPagination ? controlledPage ?? 1 : internalPage`. -/
def currentPage (m : PaginationMode) (controlledPage : Option Nat)
    (internalPage : Nat) : Nat :=
  if isControlledPagination m then controlledPage.getD 1 else internalPage

/-- JS `Array.prototype.slice(start, end)` for nonnegative indices. -/
def jsSlice (l : List Row) (s e : Nat) : List Row :=
  (l.take e).drop s

/-- `paginatedData` in `src/components/Table.tsx`: slice only when
pagination is enabled and not controlled, else the processed data whole. -/
def paginatedData (processed : List Row) (m : PaginationMode)
    (controlledPage : Option Nat) (internalPage itemsPerPage : Nat) :
    List Row :=
  if isPaginationEnabled m processed.length itemsPerPage &&
      !isControlledPagination m then
    jsSlice processed
      ((currentPage m controlledPage internalPage - 1) * itemsPerPage)
      (currentPage m controlledPage internalPage * itemsPerPage)
  else processed

/-- The `pageNumbers` window of `src/components/Pagination.tsx`, with `-1`
as the ellipsis marker, exactly as in the source. -/
def pageNumbers (page totalPages : Nat) : List Int :=
  if totalPages ≤ 5 then
    (List.range' 1 totalPages).map (fun i => (i : Int))
  else if page ≤ 3 then
    ((List.range' 1 3).map (fun i => (i : Int)))
      ++ (if page = 3 ∧ page + 1 ≤ totalPages - 2
          then [((page : Int) + 1)] else [])
      ++ (if totalPages > 4 then [(-1 : Int)] else [])
      ++ [(totalPages : Int)]
  else if page ≥ totalPages - 2 then
    [(1 : Int)] ++ (if totalPages > 4 then [(-1 : Int)] else [])
      ++ (List.range' (totalPages - 2) 3).map (fun i => (i : Int))
  else
    [(1 : Int), (-1 : Int)]
      ++ (List.range' (page - 1) 3).map (fun i => (i : Int))
      ++ [(-1 : Int), (totalPages : Int)]

/-! Helper lemmas. -/

/-- Two nullish values compare equal under the comparator in either
direction: both relational comparisons convert `undefined` to NaN or `null`
to `0`, so neither strict comparison holds. -/
theorem cmpJS_nullish_zero (d : Direction) (u v : JsVal)
    (hu : u = JsVal.null ∨ u = JsVal.undef)
    (hv : v = JsVal.null ∨ v = JsVal.undef) : cmpJS d u v = 0 := by
  rcases hu with rfl | rfl <;> rcases hv with rfl | rfl <;> rfl

/-- A comparator that returns `0` on every pair of elements of a list leaves
the stable sort as the identity. -/
theorem stableSort_eq_self {α : Type} (c : α → α → Int) (l : List α)
    (h : ∀ a ∈ l, ∀ b ∈ l, c a b = 0) : stableSort c l = l := by
  induction l with
  | nil => rfl
  | cons x xs ih =>
    have hxs : stableSort c xs = xs :=
      ih (fun a ha b hb =>
        h a (List.mem_cons_of_mem _ ha) b (List.mem_cons_of_mem _ hb))
    show insertCmp c x (stableSort c xs) = x :: xs
    rw [hxs]
    cases xs with
    | nil => rfl
    | cons y ys =>
      have hxy : c x y = 0 :=
        h x (List.mem_cons_self _ _) y
          (List.mem_cons_of_mem _ (List.mem_cons_self _ _))
      show insertCmp c x (y :: ys) = x :: y :: ys
      unfold insertCmp
      rw [hxy]
      simp

/-- Writing one boolean to every id in a list, by folding single-key
updates, reads back pointwise as membership in the list. -/
theorem foldl_update_apply (ids : List String) (b : Bool) (m : SelMap)
    (x : String) :
    (ids.foldl (fun acc id => Function.update acc id b) m) x
      = if x ∈ ids then b else m x := by
  induction ids generalizing m with
  | nil => simp
  | cons y ys ih =>
    simp only [List.foldl_cons, ih, List.mem_cons]
    by_cases hys : x ∈ ys
    · simp [hys]
    · by_cases hxy : x = y
      · subst hxy; simp [hys, Function.update_same]
      · simp [hys, hxy, Function.update_noteq hxy]

/-- Pointwise reading of `toggleAllRows`: ids in the list read the computed
target value, everything else reads the previous map. -/
theorem toggleAllRows_apply (m : SelMap) (ids : List String)
    (v : Option Bool) (x : String) :
    toggleAllRows m ids v x
      = if x ∈ ids
        then v.getD (!(decide (ids.length > 0) && ids.all (fun id => m id)))
        else m x := by
  unfold toggleAllRows
  exact foldl_update_apply ids _ m x

/-- Unfolding of `initState` with a persistence key present. -/
theorem initState_some {S : Type} (defaultValue : S) (k : String)
    (parse : String → Option S) (store : Store) :
    initState defaultValue (some k) parse store
      = match store k with
        | none => defaultValue
        | some item =>
          if item = "" then defaultValue else (parse item).getD defaultValue :=
  rfl

/-! Claim theorems. -/

/-- C1 counterexample: in ascending mode the sort stage leaves a row with a
`null` sort-key value in front of a row with the non-null value `"a"` — the
comparator returns `0` for `null` against a non-numeric string in both
orders, so the stable sort keeps the input order and the null row is not
placed after the non-null row, refuting the claimed null-last placement at
this input. -/
theorem sort_nulls_not_last_cex :
    sortStage Direction.asc "k"
        [[("k", JsVal.null)], [("k", JsVal.str ['a'])]]
      = [[("k", JsVal.null)], [("k", JsVal.str ['a'])]] ∧
    isNullish (getField [("k", JsVal.null)] "k") = true ∧
    isNullish (getField [("k", JsVal.str ['a'])] "k") = false ∧
    nullsLastB "k"
        (sortStage Direction.asc "k"
          [[("k", JsVal.null)], [("k", JsVal.str ['a'])]]) = false := by
  decide

/-- C1 (amended): the sort stage gives null/undefined values no special
placement.  The comparator compares the raw values with the JS relational
operators, under which `null` and a non-numeric string compare equal in
both directions, and any two nullish values compare equal; consequently the
stable sort leaves a list whose sort-key values are all nullish unchanged
for every direction, instead of moving nulls to the end. -/
theorem sortStage_no_null_pinning (d : Direction) (k : String)
    (s : List Char) (hs : strToNumber? s = none) (l : List Row)
    (hl : ∀ r ∈ l,
      getField r k = JsVal.null ∨ getField r k = JsVal.undef) :
    (cmpJS d JsVal.null (JsVal.str s) = 0 ∧
      cmpJS d (JsVal.str s) JsVal.null = 0) ∧
    sortStage d k l = l := by
  have h1 : jsLess JsVal.null (JsVal.str s) = false := by
    simp [jsLess, jsPrimVal, toNumber?, hs]
  have h2 : jsLess (JsVal.str s) JsVal.null = false := by
    simp [jsLess, jsPrimVal, toNumber?, hs]
  refine ⟨⟨by simp [cmpJS, h1, h2], by simp [cmpJS, h1, h2]⟩, ?_⟩
  unfold sortStage
  apply stableSort_eq_self
  intro a ha b hb
  exact cmpJS_nullish_zero d _ _ (hl a ha) (hl b hb)

/-- C1 witness: the amended theorem applied at direction `asc`, string
`"a"` and a two-row list with `null` and `undefined` sort-key values. -/
theorem sortStage_no_null_pinning_witness :
    strToNumber? ['a'] = none ∧
    ((cmpJS Direction.asc JsVal.null (JsVal.str ['a']) = 0 ∧
       cmpJS Direction.asc (JsVal.str ['a']) JsVal.null = 0) ∧
      sortStage Direction.asc "k"
          [[("k", JsVal.null)], [("k", JsVal.undef)]]
        = [[("k", JsVal.null)], [("k", JsVal.undef)]]) :=
  ⟨by decide,
   sortStage_no_null_pinning Direction.asc "k" ['a'] (by decide)
     [[("k", JsVal.null)], [("k", JsVal.undef)]] (by decide)⟩

/-- C2: `handleSort` ignores the reserved pseudo-keys (no transition is
dispatched), flips `asc` to `desc` when the requested key is the current
key, and resets to `asc` in every other case. -/
theorem handleSort_spec (s : SortState) (k : String) :
    (k = "select" ∨ k = "actions" → handleSort s k = none) ∧
    (k ≠ "select" → k ≠ "actions" → s.key = some k →
      s.direction = Direction.asc →
      handleSort s k
        = some { key := some k, direction := Direction.desc }) ∧
    (k ≠ "select" → k ≠ "actions" →
      (s.key ≠ some k ∨ s.direction ≠ Direction.asc) →
      handleSort s k
        = some { key := some k, direction := Direction.asc }) := by
  refine ⟨?_, ?_, ?_⟩
  · intro h
    unfold handleSort
    rw [if_pos (h.elim (fun h1 => Or.inr h1) (fun h2 => Or.inl h2))]
  · intro h1 h2 hk hd
    unfold handleSort
    rw [if_neg (by rintro (h | h) <;> [exact h2 h; exact h1 h])]
    rw [hk, hd]
    simp
  · intro h1 h2 hor
    unfold handleSort
    rw [if_neg (by rintro (h | h) <;> [exact h2 h; exact h1 h])]
    have hno : ¬(s.key = some k ∧ s.direction = Direction.asc) := by
      rcases hor with h | h <;> intro hc
      · exact h hc.1
      · exact h hc.2
    rw [if_neg hno]

/-- C2 witness: sorting the current `asc` key flips to `desc`. -/
theorem handleSort_spec_witness :
    handleSort { key := some "name", direction := Direction.asc } "name"
      = some { key := some "name", direction := Direction.desc } :=
  (handleSort_spec { key := some "name", direction := Direction.asc }
      "name").2.1 (by decide) (by decide) rfl rfl

/-- C3: `toggleAllRows` sets every given id to the explicit value when one
is given and otherwise to the negation of all-currently-selected, leaves
every other id unchanged, and forcing `true` twice equals forcing it
once. -/
theorem toggleAllRows_spec (m : SelMap) (ids : List String)
    (v : Option Bool) (x : String) :
    (x ∈ ids → toggleAllRows m ids v x
        = v.getD (!(decide (ids ≠ []) && ids.all (fun id => m id)))) ∧
    (x ∉ ids → toggleAllRows m ids v x = m x) ∧
    toggleAllRows (toggleAllRows m ids (some true)) ids (some true)
      = toggleAllRows m ids (some true) := by
  have hdec : decide (ids.length > 0) = decide (ids ≠ []) :=
    decide_eq_decide.mpr List.length_pos
  refine ⟨?_, ?_, ?_⟩
  · intro hx
    rw [toggleAllRows_apply, if_pos hx, hdec]
  · intro hx
    rw [toggleAllRows_apply, if_neg hx]
  · funext y
    by_cases hy : y ∈ ids
    · simp [toggleAllRows_apply, hy]
    · simp [toggleAllRows_apply, hy]

/-- C3 witness: force-selecting two ids on the empty selection marks a
given id. -/
theorem toggleAllRows_spec_witness :
    ("a" ∈ (["a", "b"] : List String)) ∧
    toggleAllRows (fun _ => false) ["a", "b"] (some true) "a"
      = (some true).getD
          (!(decide ((["a", "b"] : List String) ≠ []) &&
            (["a", "b"] : List String).all (fun _ => false))) :=
  ⟨by simp,
   (toggleAllRows_spec (fun _ => false) ["a", "b"] (some true) "a").1
     (by simp)⟩

/-- C4: `isAllSelected` holds exactly on a nonempty id list that is wholly
truthy (so the empty list yields `false`), and `isSomeSelected` holds
exactly when the truthy count is strictly between `0` and the length (so
the empty list and a fully selected list both yield `false`).  Both queries
are plain boolean-valued functions of the map: they produce no new map. -/
theorem selection_queries_spec (m : SelMap) (ids : List String) :
    (isAllSelected m ids = true ↔ ids ≠ [] ∧ ∀ id ∈ ids, m id = true) ∧
    isAllSelected m [] = false ∧
    (isSomeSelected m ids = true ↔
      0 < (ids.filter (fun id => m id)).length ∧
        (ids.filter (fun id => m id)).length < ids.length) ∧
    isSomeSelected m [] = false ∧
    ((∀ id ∈ ids, m id = true) → isSomeSelected m ids = false) := by
  refine ⟨?_, ?_, ?_, ?_, ?_⟩
  · simp [isAllSelected, Bool.and_eq_true, decide_eq_true_eq,
      List.all_eq_true, List.length_pos]
  · simp [isAllSelected]
  · by_cases h0 : ids.length = 0
    · have : ids = [] := List.length_eq_zero.mp h0
      subst this
      simp [isSomeSelected]
    · simp [isSomeSelected, h0, Bool.and_eq_true, decide_eq_true_eq]
  · simp [isSomeSelected]
  · intro hall
    have hfil : ids.filter (fun id => m id) = ids :=
      List.filter_eq_self.mpr (fun a ha => by simpa using hall a ha)
    unfold isSomeSelected
    by_cases h0 : ids.length = 0
    · simp [h0]
    · simp [h0, hfil]

/-- C4 witness: a fully selected id list is not partially selected. -/
theorem selection_queries_spec_witness :
    isSomeSelected (fun _ => true) ["a", "b"] = false :=
  (selection_queries_spec (fun _ => true) ["a", "b"]).2.2.2.2
    (fun _ _ => rfl)

/-- C5: with at most five total pages the window is the full page list for
any current page, and the four concrete windows of the spec hold. -/
theorem pageNumbers_spec :
    (∀ page totalPages : Nat, totalPages ≤ 5 →
      pageNumbers page totalPages
        = (List.range' 1 totalPages).map (fun i => (i : Int))) ∧
    pageNumbers 1 10 = [1, 2, 3, -1, 10] ∧
    pageNumbers 5 10 = [1, -1, 4, 5, 6, -1, 10] ∧
    pageNumbers 10 10 = [1, -1, 8, 9, 10] ∧
    pageNumbers 2 3 = [1, 2, 3] := by
  refine ⟨?_, by decide, by decide, by decide, by decide⟩
  intro page totalPages h
  unfold pageNumbers
  rw [if_pos h]

/-- C5 witness: the full-list case applied at current page `7` and total
pages `4`. -/
theorem pageNumbers_spec_witness :
    pageNumbers 7 4 = (List.range' 1 4).map (fun i => (i : Int)) :=
  pageNumbers_spec.1 7 4 (by decide)

/-- C6: the search stage depends on the search string only through its
lowercasing, so any two case-variants filter to the same subset in the same
order, and the whole pipeline agrees on them as well. -/
theorem search_case_insensitive (rows : List Row) (cols : List Column)
    (s t : List Char) (h : toLowerStr s = toLowerStr t) :
    searchStage rows cols s = searchStage rows cols t ∧
    ∀ (st : SortState) (dis : Bool),
      processedData rows cols s st dis = processedData rows cols t st dis := by
  have hlen : s.length = t.length := by
    have := congrArg List.length h
    simpa [toLowerStr] using this
  have hsearch : searchStage rows cols s = searchStage rows cols t := by
    by_cases hs : s = []
    · have ht : t = [] := by
        have h0 : t.length = 0 := by rw [← hlen, hs]; rfl
        exact List.length_eq_zero.mp h0
      rw [hs, ht]
    · have ht : t ≠ [] := by
        intro h0
        apply hs
        apply List.length_eq_zero.mp
        rw [hlen, h0]
        rfl
      unfold searchStage
      rw [if_neg hs, if_neg ht, h]
  refine ⟨hsearch, ?_⟩
  intro st dis
  cases dis <;> simp [processedData, hsearch]

/-- C6 witness: searching for `"JANE"` and for `"jane"` filters the same
rows. -/
theorem search_case_insensitive_witness :
    toLowerStr "JANE".data = toLowerStr "jane".data ∧
    searchStage
        [[("name", JsVal.str "jane".data)], [("name", JsVal.str "bob".data)]]
        [Column.mk "name"] "JANE".data
      = searchStage
          [[("name", JsVal.str "jane".data)],
           [("name", JsVal.str "bob".data)]]
          [Column.mk "name"] "jane".data :=
  ⟨by decide,
   (search_case_insensitive
       [[("name", JsVal.str "jane".data)], [("name", JsVal.str "bob".data)]]
       [Column.mk "name"] "JANE".data "jane".data (by decide)).1⟩

/-- C7 (code evaluated at the failing input): sorting two rows with string
values `"a"` and `"B"` ascending puts `"B"` first, because the comparator
compares UTF-16 code units (`B` is `66`, `a` is `97`); a locale-aware
comparison as documented orders `"a"` strictly before `"B"`.  The code
therefore contradicts the claimed (and repository-documented) locale-aware
string comparison. -/
theorem sortStage_string_comparison_bug :
    sortStage Direction.asc "k"
        [[("k", JsVal.str ['a'])], [("k", JsVal.str ['B'])]]
      = [[("k", JsVal.str ['B'])], [("k", JsVal.str ['a'])]] ∧
    localeCompareSpec ['a'] ['B'] < 0 ∧
    cmpJS Direction.asc (JsVal.str ['a']) (JsVal.str ['B']) = 1 := by
  decide

/-- C8: updating the persisted cell to a value writes its serialization to
the store under the persistence key, and a fresh cell initialized with the
same key against the resulting store yields that value, given that the
serializer round-trips on the value and produces a nonempty payload (as
`JSON.stringify` always does). -/
theorem persistence_roundtrip (stringify : SortState → String)
    (parse : String → Option SortState) (v prev defaultValue : SortState)
    (k : String) (store : Store)
    (hrt : parse (stringify v) = some v) (hne : stringify v ≠ "") :
    (updateState (some k) stringify (Sum.inl v) prev store).1 = v ∧
    (updateState (some k) stringify (Sum.inl v) prev store).2 k
      = some (stringify v) ∧
    initState defaultValue (some k) parse
        (updateState (some k) stringify (Sum.inl v) prev store).2 = v := by
  refine ⟨rfl, ?_, ?_⟩
  · show Function.update store k (some (stringify v)) k = some (stringify v)
    simp [Function.update_same]
  · have hupd : (updateState (some k) stringify (Sum.inl v) prev store).2
        = Function.update store k (some (stringify v)) := rfl
    rw [initState_some, hupd, Function.update_same]
    show (if stringify v = "" then defaultValue
          else (parse (stringify v)).getD defaultValue) = v
    rw [if_neg hne, hrt]
    rfl

/-- C8 witness: the round trip applied to a concrete sort state and a
concrete codec on an empty store. -/
theorem persistence_roundtrip_witness :
    initState (SortState.mk none Direction.asc) (some "pk")
        (fun _ => some (SortState.mk (some "name") Direction.desc))
        (updateState (some "pk") (fun _ => "s")
          (Sum.inl (SortState.mk (some "name") Direction.desc))
          (SortState.mk none Direction.asc) (fun _ => none)).2
      = SortState.mk (some "name") Direction.desc :=
  (persistence_roundtrip (fun _ => "s")
      (fun _ => some (SortState.mk (some "name") Direction.desc))
      (SortState.mk (some "name") Direction.desc)
      (SortState.mk none Direction.asc) (SortState.mk none Direction.asc)
      "pk" (fun _ => none) rfl (by decide)).2.2

/-- C9: when the payload stored under the persistence key is absent or not
parseable, initialization returns the caller-supplied default; the
initializer is a total function, so no exception escapes (the source logs
the failure inside its `catch`). -/
theorem initState_malformed_fallback {S : Type} (defaultValue : S)
    (parse : String → Option S) (k : String) (store : Store)
    (h : ∀ item, store k = some item → parse item = none) :
    initState defaultValue (some k) parse store = defaultValue := by
  rw [initState_some]
  cases hsk : store k with
  | none => rfl
  | some item =>
    show (if item = "" then defaultValue
          else (parse item).getD defaultValue) = defaultValue
    by_cases hemp : item = ""
    · rw [if_pos hemp]
    · rw [if_neg hemp, h item hsk]
      rfl

/-- C9 witness: a store seeded with a non-JSON payload under the key,
together with a parser that rejects it, falls back to the default. -/
theorem initState_malformed_fallback_witness :
    initState (SortState.mk none Direction.asc) (some "pk")
        (fun _ => (none : Option SortState))
        (fun key => if key = "pk" then some "not json" else none)
      = SortState.mk none Direction.asc :=
  initState_malformed_fallback (SortState.mk none Direction.asc)
    (fun _ => none) "pk"
    (fun key => if key = "pk" then some "not json" else none)
    (fun _ _ => rfl)

/-- C10: in manual (controlled) pagination mode `paginatedData` is the
whole processed list for every page value, and in general the slice
`[(page-1)*itemsPerPage, page*itemsPerPage)` is taken exactly when the mode
is `auto` and the processed length exceeds the page size. -/
theorem paginatedData_spec (processed : List Row) (m : PaginationMode)
    (controlledPage : Option Nat) (internalPage itemsPerPage : Nat) :
    (m = PaginationMode.manual →
      paginatedData processed m controlledPage internalPage itemsPerPage
        = processed) ∧
    paginatedData processed m controlledPage internalPage itemsPerPage
      = (if m = PaginationMode.auto ∧ processed.length > itemsPerPage
         then jsSlice processed ((internalPage - 1) * itemsPerPage)
                (internalPage * itemsPerPage)
         else processed) := by
  constructor
  · intro hm
    subst hm
    simp [paginatedData, isPaginationEnabled, isControlledPagination]
  · cases m with
    | auto =>
      by_cases hlen : processed.length > itemsPerPage
      · simp [paginatedData, isPaginationEnabled, isControlledPagination,
          currentPage, hlen]
      · simp [paginatedData, isPaginationEnabled, isControlledPagination,
          currentPage, hlen]
    | manual =>
      simp [paginatedData, isPaginationEnabled, isControlledPagination]
    | off =>
      simp [paginatedData, isPaginationEnabled, isControlledPagination]

/-- C10 witness: manual mode returns the processed rows unsliced. -/
theorem paginatedData_spec_witness :
    paginatedData [[("k", JsVal.num 1)]] PaginationMode.manual (some 7) 1 0
      = [[("k", JsVal.num 1)]] :=
  (paginatedData_spec [[("k", JsVal.num 1)]] PaginationMode.manual (some 7)
      1 0).1 rfl

end Flowers
